import Mathlib

/-!
# Street merging and crossroad emission of `pbf`

A shallow embedding of `command/street_merge.go` (`joinStreets`,
`generateStreetsFromWays`) and `command/crossroads.go` (`printCSVLine`).

Conventions of the embedding.

* A `geo.Path` is the list of its points.  The point type `P` is a parameter:
  the code never looks inside a point.
* The list handed to `joinStreets` holds distinct `*street` objects (this is
  what `generateStreetsFromWays` builds), so a slice of pointers is a list of
  values and an in-place update of `streets[i].Path` is `List.set`.
* The geometry library (`Path.Intersects`, `Point.DistanceFrom`) is not part of
  the repository; it is the parameter `Geo`.
* Go randomises the iteration order of a map.  The key that
  `for k, v := range distanceList` delivers first is therefore supplied by an
  oracle `pick : Nat → DistanceType`, asked once per merge (the argument is the
  number of merges already done).
* Calls of `log.Println` do not change the result and are left out.  In
  `joinStreets` the four distances feed only such a log line and the sorted slice
  `keys`, which the code never reads; `distanceList` gives their values.
* A Go run-time panic or `log.Fatal` is the `Except` error `Fault`.
* `printCSVLine` returns the records it hands to `csvWriter.Write`, in order.
  Every record is tagged with the two loop indices and the two way ids it was
  built from (`Emission`); `printCSVLine` itself forgets the tags.
* `generateStreetsFromWays` takes the rows of the SQL query as a list; a SQL
  `NULL` is `none`.  `strconv.ParseFloat` is a parameter.
-/

namespace Pbf

/-! ## Data model -/

/-- The `street` struct of `street_merge.go`: a path and a name. -/
structure street (P : Type) where
  Path : List P
  Name : String
deriving DecidableEq, Repr

/-- The four keys of `distanceList`: first/first, first/last, last/first, last/last. -/
inductive DistanceType where
  | ff | fl | lf | ll
deriving DecidableEq, Repr

/-- Abnormal ends of the embedded Go code: the two run-time panics that occur,
`log.Fatal`, and exhaustion of the loop budget of the embedding. -/
inductive Fault where
  | indexOutOfRange
  | nilPointer
  | fatalExit
  | outOfFuel
deriving DecidableEq, Repr

/-- The two operations of the geometry library that `joinStreets` calls:
`Path.Intersects` and `Point.DistanceFrom` (distances live in `D`). -/
structure Geo (P D : Type) where
  Intersects : List P → List P → Bool
  DistanceFrom : P → P → D

/-! ## `joinStreets` -/

/-- The tuple assignment `ps[i], ps[opp] = ps[opp], ps[i]`. -/
def swapAt {P : Type} (ps : List P) (i opp : Nat) : List P :=
  match ps[i]?, ps[opp]? with
  | some a, some b => (ps.set i b).set opp a
  | _, _ => ps

/-- The loop of the local closure `reversePath`; `reversePathLoop (i + 1)` runs the
iterations `i, i - 1, ..., 0`. -/
def reversePathLoop {P : Type} : Nat → List P → List P
  | 0, ps => ps
  | i + 1, ps => reversePathLoop i (swapAt ps i (ps.length - 1 - i))

/-- The local closure `reversePath`: `for i := len/2 - 1; i >= 0; i--` swapping the
entries `i` and `len - 1 - i`. -/
def reversePath {P : Type} (ps : List P) : List P :=
  reversePathLoop (ps.length / 2) ps

/-- The loop `for k := 0; k < len(pj); k++ { pi.Push(&pj[k]) }`. -/
def pushAll {P : Type} : List P → List P → List P
  | pi, [] => pi
  | pi, p :: rest => pushAll (pi ++ [p]) rest

/-- The `switch DistanceType` of `joinStreets`: the new path of street `i`. -/
def splice {P : Type} (ty : DistanceType) (pi pj : List P) : List P :=
  match ty with
  | .ff => reversePath (pushAll (reversePath pi) pj)
  | .fl => reversePath (pushAll (reversePath pi) (reversePath pj))
  | .lf => pushAll pi pj
  | .ll => pushAll pi (reversePath pj)

/-- The value stored in `distanceList` under each key. -/
def distanceList {P D : Type} (geo : Geo P D) (fi li fj lj : P) : DistanceType → D
  | .ff => geo.DistanceFrom fi fj
  | .fl => geo.DistanceFrom fi lj
  | .lf => geo.DistanceFrom li fj
  | .ll => geo.DistanceFrom li lj

/-- One merge: street `i` receives the spliced path, then
`streets = append(streets[:j], streets[j+1:]...)`. -/
def mergeAt {P : Type} (ty : DistanceType) (streets : List (street P)) (i j : Nat)
    (si sj : street P) : List (street P) :=
  (streets.set i { si with Path := splice ty si.Path sj.Path }).eraseIdx j

/-- The inner loop `for j := ...; j < len(streets); j++`, entered at `j`.
The state is the working list and the number of merges done so far.  The four
endpoint lookups `First()` and `Last()` yield `nil` on an empty path, and
`DistanceFrom` then panics.  `DistanceType` is the first key of the range over
the map, `pick merges`. -/
def innerLoop {P D : Type} (geo : Geo P D) (pick : Nat → DistanceType) (i : Nat) :
    Nat → Nat → List (street P) → Nat → Except Fault (List (street P) × Nat)
  | 0, _, _, _ => .error .outOfFuel
  | fuel + 1, j, streets, merges =>
    if j < streets.length then
      if i = j then innerLoop geo pick i fuel (j + 1) streets merges
      else
        match streets[i]?, streets[j]? with
        | some si, some sj =>
          let intersects := geo.Intersects si.Path sj.Path
          if si.Name = sj.Name ∧ intersects = true then
            match si.Path.head?, si.Path.getLast?, sj.Path.head?, sj.Path.getLast? with
            | some _, some _, some _, some _ =>
              innerLoop geo pick i fuel (j + 1)
                (mergeAt (pick merges) streets i j si sj) (merges + 1)
            | _, _, _, _ => .error .nilPointer
          else innerLoop geo pick i fuel (j + 1) streets merges
        | _, _ => .error .indexOutOfRange
    else .ok (streets, merges)

/-- The outer loop `for i := ...; i < len(streets); i++`, entered at `i`. -/
def outerLoop {P D : Type} (geo : Geo P D) (pick : Nat → DistanceType) :
    Nat → Nat → List (street P) → Nat → Except Fault (List (street P) × Nat)
  | 0, _, _, _ => .error .outOfFuel
  | fuel + 1, i, streets, merges =>
    if i < streets.length then
      match innerLoop geo pick i (streets.length + 1) 0 streets merges with
      | .ok (streets', merges') => outerLoop geo pick fuel (i + 1) streets' merges'
      | .error e => .error e
    else .ok (streets, merges)

/-- The function `joinStreets` with the number of merges it performed. -/
def joinStreetsCount {P D : Type} (geo : Geo P D) (pick : Nat → DistanceType)
    (streets : List (street P)) : Except Fault (List (street P) × Nat) :=
  outerLoop geo pick (streets.length + 1) 0 streets 0

/-- The function `joinStreets`. -/
def joinStreets {P D : Type} (geo : Geo P D) (pick : Nat → DistanceType)
    (streets : List (street P)) : Except Fault (List (street P)) :=
  match joinStreetsCount geo pick streets with
  | .ok (out, _) => .ok out
  | .error e => .error e

/-! ## A concrete geometry on integer points

Used to run `joinStreets` on concrete inputs: an exact planar segment test and
the squared Euclidean distance (which orders point pairs as the distance does). -/

/-- A point with integer coordinates. -/
abbrev Pt := Int × Int

/-- Two closed segments `a b` and `c d` cross or touch. -/
def segIntersects (a b c d : Pt) : Bool :=
  let den := (d.2 - c.2) * (b.1 - a.1) - (d.1 - c.1) * (b.2 - a.2)
  let u1 := (d.1 - c.1) * (a.2 - c.2) - (d.2 - c.2) * (a.1 - c.1)
  let u2 := (b.1 - a.1) * (a.2 - c.2) - (b.2 - a.2) * (a.1 - c.1)
  if den = 0 then
    decide (u1 = 0 ∧ u2 = 0
      ∧ max (min a.1 b.1) (min c.1 d.1) ≤ min (max a.1 b.1) (max c.1 d.1)
      ∧ max (min a.2 b.2) (min c.2 d.2) ≤ min (max a.2 b.2) (max c.2 d.2))
  else if 0 < den then
    decide (0 ≤ u1 ∧ u1 ≤ den ∧ 0 ≤ u2 ∧ u2 ≤ den)
  else
    decide (den ≤ u1 ∧ u1 ≤ 0 ∧ den ≤ u2 ∧ u2 ≤ 0)

/-- The consecutive point pairs of a path. -/
def segments : List Pt → List (Pt × Pt)
  | a :: b :: rest => (a, b) :: segments (b :: rest)
  | _ => []

/-- Some segment of the first path crosses or touches some segment of the second. -/
def planarIntersects (p q : List Pt) : Bool :=
  (segments p).any fun s => (segments q).any fun t => segIntersects s.1 s.2 t.1 t.2

/-- Squared Euclidean distance. -/
def sqDist (a b : Pt) : Int :=
  (a.1 - b.1) * (a.1 - b.1) + (a.2 - b.2) * (a.2 - b.2)

/-- The planar geometry on integer points. -/
def planar : Geo Pt Int where
  Intersects := planarIntersects
  DistanceFrom := sqDist



/-! ## `printCSVLine` -/

/-- The coordinate fields of `gosmparse.Node`; `F` stands for `float64`. -/
structure Node (F : Type) where
  Lat : F
  Lon : F

/-- The fields of `handler.Xroads` that `printCSVLine` reads.  A Go map lookup of a
missing key yields the zero value: `""` for `WayNames`, `nil` for `Coords`. -/
structure Xroads (F : Type) where
  WayNames : Int → String
  Coords : Int → Option (Node F)

/-- The call `fmt.Sprintf("w%d-n%d-w%d", wayID1, nodeid, wayID2)`. -/
def crossroadID (wayID1 nodeid wayID2 : Int) : String :=
  "w" ++ toString wayID1 ++ "-n" ++ toString nodeid ++ "-w" ++ toString wayID2

/-- The slice handed to `csvWriter.Write`; `fmtF` is `fmt.Sprintf("%f", _)`. -/
def csvRecord {F : Type} (fmtF : F → String) (coords : Node F) (nodeid wayID1 wayID2 : Int)
    (name1 name2 : String) : List String :=
  ["osm", crossroadID wayID1 nodeid wayID2, "intersection", fmtF coords.Lat, fmtF coords.Lon,
    name1, name2]

/-- One call of `csvWriter.Write`, with the loop indices and way ids it came from. -/
structure Emission where
  i : Nat
  j : Nat
  wayID1 : Int
  wayID2 : Int
  record : List String
deriving DecidableEq, Repr

/-- The inner loop `for j, wayID2 := range uniqueWayIds`, entered at index `j` with
`rest` still to visit. -/
def innerRange {F : Type} (fmtF : F → String) (handler : Xroads F) (coords : Option (Node F))
    (nodeid : Int) (i : Nat) (wayID1 : Int) :
    Nat → List Int → List Emission → Except Fault (List Emission)
  | _, [], out => .ok out
  | j, wayID2 :: rest, out =>
    let name1 := handler.WayNames wayID1
    let name2 := handler.WayNames wayID2
    if j ≤ i ∨ wayID1 = wayID2 ∨ name1.length = 0 ∨ name2.length = 0 then
      innerRange fmtF handler coords nodeid i wayID1 (j + 1) rest out
    else
      match coords with
      | none => .error .nilPointer
      | some c =>
        innerRange fmtF handler coords nodeid i wayID1 (j + 1) rest
          (out ++ [⟨i, j, wayID1, wayID2, csvRecord fmtF c nodeid wayID1 wayID2 name1 name2⟩])

/-- The outer loop `for i, wayID1 := range uniqueWayIds`, entered at index `i`. -/
def outerRange {F : Type} (fmtF : F → String) (handler : Xroads F) (coords : Option (Node F))
    (nodeid : Int) (uniqueWayIds : List Int) :
    Nat → List Int → List Emission → Except Fault (List Emission)
  | _, [], out => .ok out
  | i, wayID1 :: rest, out =>
    match innerRange fmtF handler coords nodeid i wayID1 0 uniqueWayIds out with
    | .ok out' => outerRange fmtF handler coords nodeid uniqueWayIds (i + 1) rest out'
    | .error e => .error e

/-- The function `printCSVLine`, every record tagged with its origin. -/
def printCSVLineTagged {F : Type} (fmtF : F → String) (handler : Xroads F) (nodeid : Int)
    (uniqueWayIds : List Int) : Except Fault (List Emission) :=
  outerRange fmtF handler (handler.Coords nodeid) nodeid uniqueWayIds 0 uniqueWayIds []

/-- The function `printCSVLine`: the records written, in order. -/
def printCSVLine {F : Type} (fmtF : F → String) (handler : Xroads F) (nodeid : Int)
    (uniqueWayIds : List Int) : Except Fault (List (List String)) :=
  match printCSVLineTagged fmtF handler nodeid uniqueWayIds with
  | .ok out => .ok (out.map Emission.record)
  | .error e => .error e

/-! ## `generateStreetsFromWays` -/

/-- One row of the query of `loadStreetsFromDatabase`. -/
structure WayRow where
  wayid : Int
  nodeids : Option String
  name : Option String

/-- Splitting a character list at every occurrence of `sep`. -/
def splitChars (sep : Char) : List Char → List (List Char)
  | [] => [[]]
  | c :: cs =>
    if c = sep then [] :: splitChars sep cs
    else
      match splitChars sep cs with
      | [] => [[c]]
      | w :: ws => (c :: w) :: ws

/-- The call `strings.Split(s, sep)` for a one-character separator. -/
def Split (s : String) (sep : Char) : List String :=
  (splitChars sep s.data).map String.mk

/-- The method `PointSet.InsertAt`: it panics when the index is beyond the length. -/
def InsertAt {P : Type} (path : List P) (index : Nat) (point : P) : Except Fault (List P) :=
  if index > path.length then .error .indexOutOfRange
  else .ok (path.insertIdx index point)

/-- The loop `for i, node := range wayNodes` of the callback, entered at index `i`.
The result `none` is the early `return` after a coordinate failed to parse. -/
def buildPath {F : Type} (ParseFloat : String → Option F) :
    Nat → List String → List (F × F) → Except Fault (Option (List (F × F)))
  | _, [], path => .ok (some path)
  | i, node :: rest, path =>
    match Split node '#' with
    | c0 :: c1 :: _ =>
      match ParseFloat c0, ParseFloat c1 with
      | some lon, some lat =>
        match InsertAt path i (lon, lat) with
        | .ok path' => buildPath ParseFloat (i + 1) rest path'
        | .error e => .error e
      | _, _ => .ok none
    | _ => .error .indexOutOfRange

/-- The callback that `generateStreetsFromWays` passes to `loadStreetsFromDatabase`:
`none` when the row is skipped, `some s` when the street `s` is appended. -/
def callback {F : Type} (ParseFloat : String → Option F) (row : WayRow) :
    Except Fault (Option (street (F × F))) :=
  match row.name with
  | none => .error .fatalExit
  | some name =>
    match row.nodeids with
    | none => .ok none
    | some nodeids =>
      let wayNodes := Split nodeids ','
      if wayNodes.length ≤ 1 then .ok none
      else
        match buildPath ParseFloat 0 wayNodes [] with
        | .ok (some path) => .ok (some { Name := name, Path := path })
        | .ok none => .ok none
        | .error e => .error e

/-- The loop `for rows.Next() { callback(rows) }` over the remaining rows, with the
streets collected so far. -/
def loadStreets {F : Type} (ParseFloat : String → Option F) :
    List WayRow → List (street (F × F)) → Except Fault (List (street (F × F)))
  | [], streets => .ok streets
  | row :: rest, streets =>
    match callback ParseFloat row with
    | .ok (some s) => loadStreets ParseFloat rest (streets ++ [s])
    | .ok none => loadStreets ParseFloat rest streets
    | .error e => .error e

/-- The function `generateStreetsFromWays` on the rows of the query. -/
def generateStreetsFromWays {F : Type} (ParseFloat : String → Option F)
    (rows : List WayRow) : Except Fault (List (street (F × F))) :=
  loadStreets ParseFloat rows []

/-- The point an entry `lon#lat` of the node list denotes, when both parts parse. -/
def entryPoint {F : Type} (ParseFloat : String → Option F) (node : String) : Option (F × F) :=
  match Split node '#' with
  | c0 :: c1 :: _ =>
    match ParseFloat c0, ParseFloat c1 with
    | some lon, some lat => some (lon, lat)
    | _, _ => none
  | _ => none

/-! ## Sample inputs -/

/-- Fragment A of scenario B: (0,0) → (0,1), "Elm St". -/
def elmA : street Pt := ⟨[(0, 0), (0, 1)], "Elm St"⟩

/-- Fragment B of scenario B: (0,1) → (0,2), "Elm St". -/
def elmB : street Pt := ⟨[(0, 1), (0, 2)], "Elm St"⟩

/-- A fragment of "Elm St" leaving (0,0) to the east. -/
def elmC : street Pt := ⟨[(0, 0), (1, 0)], "Elm St"⟩

/-- A fragment of "Elm St" continuing `elmC` from (1,0) to (2,0). -/
def elmD : street Pt := ⟨[(1, 0), (2, 0)], "Elm St"⟩

/-- A fragment of "Elm St" leaving (0,0) to the west. -/
def elmW : street Pt := ⟨[(0, 0), (-1, 0)], "Elm St"⟩

/-- A street of another name, far from the others. -/
def oakFar : street Pt := ⟨[(5, 5), (6, 6)], "Oak Ave"⟩

/-- The oracle that answers the first three questions with `a`, `b`, `c`. -/
def pick3 (a b c : DistanceType) : Nat → DistanceType
  | 0 => a
  | 1 => b
  | _ => c

/-! Results are compared by evaluation. -/

deriving instance DecidableEq for Except

/-! ## The records of `printCSVLine` in closed form -/

/-- The condition under which the loop body of `printCSVLine` hits `continue`. -/
def skipped {F : Type} (handler : Xroads F) (i j : Nat) (wayID1 wayID2 : Int) : Prop :=
  j ≤ i ∨ wayID1 = wayID2 ∨ (handler.WayNames wayID1).length = 0
    ∨ (handler.WayNames wayID2).length = 0

instance {F : Type} (handler : Xroads F) (i j : Nat) (wayID1 wayID2 : Int) :
    Decidable (skipped handler i j wayID1 wayID2) := by
  unfold skipped; infer_instance

/-- The tagged record written for the index pair `i`, `j` and the ways `a`, `b`. -/
def emission {F : Type} (fmtF : F → String) (handler : Xroads F) (c : Node F) (nodeid : Int)
    (i j : Nat) (a b : Int) : Emission :=
  ⟨i, j, a, b, csvRecord fmtF c nodeid a b (handler.WayNames a) (handler.WayNames b)⟩

/-- What one pass of the inner loop writes from index `j` on, the coordinate being
present. -/
def innerEmissions {F : Type} (fmtF : F → String) (handler : Xroads F) (c : Node F)
    (nodeid : Int) (i : Nat) (wayID1 : Int) : Nat → List Int → List Emission
  | _, [] => []
  | j, wayID2 :: rest =>
    if skipped handler i j wayID1 wayID2 then
      innerEmissions fmtF handler c nodeid i wayID1 (j + 1) rest
    else
      emission fmtF handler c nodeid i j wayID1 wayID2
        :: innerEmissions fmtF handler c nodeid i wayID1 (j + 1) rest

/-- What the outer loop writes from index `i` on, the coordinate being present. -/
def outerEmissions {F : Type} (fmtF : F → String) (handler : Xroads F) (c : Node F)
    (nodeid : Int) (uniqueWayIds : List Int) : Nat → List Int → List Emission
  | _, [] => []
  | i, wayID1 :: rest =>
    innerEmissions fmtF handler c nodeid i wayID1 0 uniqueWayIds
      ++ outerEmissions fmtF handler c nodeid uniqueWayIds (i + 1) rest

/-- Loop order of two records: earlier outer index, or same outer index and
earlier inner index. -/
def loopOrder (e1 e2 : Emission) : Prop :=
  e1.i < e2.i ∨ (e1.i = e2.i ∧ e1.j < e2.j)

/-- Way names with "Main St" for way 1, "Oak Ave" for way 2, node 100 at (1, 2). -/
def scenarioA : Xroads Int :=
  ⟨fun w => if w = 1 then "Main St" else if w = 2 then "Oak Ave" else "",
    fun n => if n = 100 then some ⟨1, 2⟩ else none⟩

/-- Two ways 1 and 2 that are both called "Main St", node 100 at (1, 2). -/
def splitMainSt : Xroads Int :=
  ⟨fun w => if w = 1 then "Main St" else if w = 2 then "Main St" else "",
    fun n => if n = 100 then some ⟨1, 2⟩ else none⟩

/-- A stand-in for `strconv.ParseFloat` that knows the numerals 0, 1 and 2. -/
def sampleParse (s : String) : Option Int :=
  if s = "0" then some 0 else if s = "1" then some 1 else if s = "2" then some 2 else none

/-- The way of scenario C: one resolvable node only. -/
def oneNodeWay : WayRow := ⟨5, some "0#0", some "Elm St"⟩

/-- A way with one resolvable node and no `name` tag: the name column is `NULL`. -/
def unnamedOneNodeWay : WayRow := ⟨5, some "0#0", none⟩

/-- A way of two resolvable nodes, (0,0) and (0,1). -/
def twoNodeWay : WayRow := ⟨7, some "0#0,0#1", some "Elm St"⟩

/-! # Theorems -/

/-! ## The splice -/

section Splice
variable {P : Type}

/-- A swap keeps the length. -/
theorem length_swapAt (ps : List P) (i opp : Nat) : (swapAt ps i opp).length = ps.length := by
  unfold swapAt
  split <;> simp

/-- The entries of a list after a swap of two valid positions. -/
theorem getElem?_swapAt (ps : List P) (i opp t : Nat) (hi : i < ps.length)
    (ho : opp < ps.length) :
    (swapAt ps i opp)[t]? = if t = opp then ps[i]? else if t = i then ps[opp]? else ps[t]? := by
  unfold swapAt
  rw [List.getElem?_eq_getElem hi, List.getElem?_eq_getElem ho]
  simp only [List.getElem?_set, List.length_set]
  by_cases h1 : t = opp
  · subst h1; simp [ho]
  · by_cases h2 : t = i
    · subst h2; simp [hi, Ne.symm h1, h1]
    · simp [h1, h2, Ne.symm h1, Ne.symm h2]

/-- The reversal loop keeps the length. -/
theorem length_reversePathLoop (k : Nat) (ps : List P) :
    (reversePathLoop k ps).length = ps.length := by
  induction k generalizing ps with
  | zero => rfl
  | succ k ih => simp [reversePathLoop, ih, length_swapAt]

/-- After `k` iterations the outer `k` entries on both sides are mirrored and the
middle is untouched. -/
theorem getElem?_reversePathLoop (k : Nat) (ps : List P) (hk : 2 * k ≤ ps.length) (t : Nat) :
    (reversePathLoop k ps)[t]? =
      if t < k ∨ (ps.length - k ≤ t ∧ t < ps.length) then ps[ps.length - 1 - t]? else ps[t]? := by
  induction k generalizing ps with
  | zero =>
    simp only [reversePathLoop]
    split
    · rename_i h
      rcases h with h | h
      · omega
      · omega
    · rfl
  | succ k ih =>
    have hi : k < ps.length := by omega
    have ho : ps.length - 1 - k < ps.length := by omega
    simp only [reversePathLoop]
    rw [ih _ (by rw [length_swapAt]; omega), length_swapAt]
    by_cases c1 : t < k ∨ (ps.length - k ≤ t ∧ t < ps.length)
    · rw [if_pos c1, getElem?_swapAt _ _ _ _ hi ho]
      have c2 : t < k + 1 ∨ (ps.length - (k + 1) ≤ t ∧ t < ps.length) := by omega
      rw [if_pos c2, if_neg (by omega), if_neg (by omega)]
    · rw [if_neg c1, getElem?_swapAt _ _ _ _ hi ho]
      by_cases c3 : t = ps.length - 1 - k
      · rw [if_pos c3, if_pos (by omega)]
        congr 1; omega
      · rw [if_neg c3]
        by_cases c4 : t = k
        · rw [if_pos c4, if_pos (by omega)]
          congr 1; omega
        · rw [if_neg c4, if_neg (by omega)]

/-- The closure `reversePath` reverses the path, whatever its length. -/
theorem reversePath_eq_reverse (ps : List P) : reversePath ps = ps.reverse := by
  apply List.ext_getElem?
  intro t
  unfold reversePath
  rw [getElem?_reversePathLoop _ _ (by omega)]
  by_cases ht : t < ps.length
  · rw [List.getElem?_reverse ht]
    split
    · rfl
    · congr 1; omega
  · have h1 : ps.reverse[t]? = none := List.getElem?_eq_none (by simpa using ht)
    have h2 : ps[t]? = none := List.getElem?_eq_none (by simpa using ht)
    rw [h1, if_neg (by omega), h2]

/-- Pushing the points of `pj` one by one appends `pj`. -/
theorem pushAll_eq_append (pi pj : List P) : pushAll pi pj = pi ++ pj := by
  induction pj generalizing pi with
  | nil => simp [pushAll]
  | cons p rest ih => simp [pushAll, ih]

/-- Case `"ff"` of the switch. -/
theorem splice_ff (pi pj : List P) : splice .ff pi pj = pj.reverse ++ pi := by
  simp [splice, reversePath_eq_reverse, pushAll_eq_append]

/-- Case `"fl"` of the switch. -/
theorem splice_fl (pi pj : List P) : splice .fl pi pj = pj ++ pi := by
  simp [splice, reversePath_eq_reverse, pushAll_eq_append]

/-- Case `"lf"` of the switch. -/
theorem splice_lf (pi pj : List P) : splice .lf pi pj = pi ++ pj := by
  simp [splice, pushAll_eq_append]

/-- Case `"ll"` of the switch. -/
theorem splice_ll (pi pj : List P) : splice .ll pi pj = pi ++ pj.reverse := by
  simp [splice, reversePath_eq_reverse, pushAll_eq_append]

/-- Every case of the switch yields as many vertices as the two paths had. -/
theorem length_splice (ty : DistanceType) (pi pj : List P) :
    (splice ty pi pj).length = pi.length + pj.length := by
  cases ty <;> simp [splice_ff, splice_fl, splice_lf, splice_ll] <;> omega

end Splice

/-! ## Loop principles for `joinStreets` -/

section JoinLoops
variable {P D : Type}

/-- A property of the working state kept by every merge holds when the inner loop
returns. -/
theorem innerLoop_inv (geo : Geo P D) (pick : Nat → DistanceType) (i : Nat)
    (Inv : List (street P) → Nat → Prop)
    (hstep : ∀ streets merges j si sj, i ≠ j → streets[i]? = some si → streets[j]? = some sj →
      si.Name = sj.Name → geo.Intersects si.Path sj.Path = true → Inv streets merges →
      Inv (mergeAt (pick merges) streets i j si sj) (merges + 1)) :
    ∀ fuel j streets merges out m, Inv streets merges →
      innerLoop geo pick i fuel j streets merges = .ok (out, m) → Inv out m := by
  intro fuel
  induction fuel with
  | zero => intro j streets merges out m _ h; simp [innerLoop] at h
  | succ fuel ih =>
    intro j streets merges out m hinv h
    rw [innerLoop] at h
    split at h
    · split at h
      · exact ih _ _ _ _ _ hinv h
      · rename_i hij
        split at h
        · rename_i si sj hsi hsj
          split at h
          · dsimp only at h
            split at h
            · rename_i hc
              exact ih _ _ _ _ _ (hstep _ _ _ _ _ hij hsi hsj hc.1 hc.2 hinv) h
            · exact ih _ _ _ _ _ hinv h
          · dsimp only at h
            split at h
            · simp at h
            · exact ih _ _ _ _ _ hinv h
        · simp at h
    · simp only [Except.ok.injEq, Prod.mk.injEq] at h
      rw [← h.1, ← h.2]; exact hinv

/-- A property of the working state kept by every merge holds when the outer loop
returns. -/
theorem outerLoop_inv (geo : Geo P D) (pick : Nat → DistanceType)
    (Inv : List (street P) → Nat → Prop)
    (hstep : ∀ streets merges i j si sj, i ≠ j → streets[i]? = some si →
      streets[j]? = some sj → si.Name = sj.Name → geo.Intersects si.Path sj.Path = true →
      Inv streets merges → Inv (mergeAt (pick merges) streets i j si sj) (merges + 1)) :
    ∀ fuel i streets merges out m, Inv streets merges →
      outerLoop geo pick fuel i streets merges = .ok (out, m) → Inv out m := by
  intro fuel
  induction fuel with
  | zero => intro i streets merges out m _ h; simp [outerLoop] at h
  | succ fuel ih =>
    intro i streets merges out m hinv h
    rw [outerLoop] at h
    split at h
    · split at h
      · rename_i s1 m1 h1
        exact ih _ _ _ _ _
          (innerLoop_inv geo pick i Inv (fun s mg j si sj => hstep s mg i j si sj) _ _ _ _ _ _
            hinv h1) h
      · simp at h
    · simp only [Except.ok.injEq, Prod.mk.injEq] at h
      rw [← h.1, ← h.2]; exact hinv

/-- A property of the working state kept by every merge holds of the result of
`joinStreetsCount` when it holds of the input with zero merges. -/
theorem joinStreetsCount_inv (geo : Geo P D) (pick : Nat → DistanceType)
    (Inv : List (street P) → Nat → Prop)
    (hstep : ∀ streets merges i j si sj, i ≠ j → streets[i]? = some si →
      streets[j]? = some sj → si.Name = sj.Name → geo.Intersects si.Path sj.Path = true →
      Inv streets merges → Inv (mergeAt (pick merges) streets i j si sj) (merges + 1))
    (streets out : List (street P)) (m : Nat) (h0 : Inv streets 0)
    (h : joinStreetsCount geo pick streets = .ok (out, m)) : Inv out m :=
  outerLoop_inv geo pick Inv hstep _ _ _ _ _ _ h0 h

/-- The result of `joinStreets` is the first component of that of `joinStreetsCount`. -/
theorem joinStreets_eq_ok (geo : Geo P D) (pick : Nat → DistanceType)
    (streets out : List (street P)) :
    joinStreets geo pick streets = .ok out ↔
      ∃ m, joinStreetsCount geo pick streets = .ok (out, m) := by
  unfold joinStreets
  split
  · rename_i o m h
    constructor
    · intro e; simp only [Except.ok.injEq] at e; subst e; exact ⟨m, h⟩
    · rintro ⟨m2, e⟩; rw [h] at e; simp only [Except.ok.injEq, Prod.mk.injEq] at e; rw [e.1]
  · rename_i e h
    constructor
    · intro e; simp at e
    · rintro ⟨m2, e2⟩; rw [h] at e2; simp at e2

/-- A merge at valid indices shortens the working list by one. -/
theorem length_mergeAt (ty : DistanceType) (streets : List (street P)) (i j : Nat)
    (si sj : street P) (hj : streets[j]? = some sj) :
    (mergeAt ty streets i j si sj).length + 1 = streets.length := by
  have hj' : j < streets.length := by
    rcases Nat.lt_or_ge j streets.length with h | h
    · exact h
    · rw [List.getElem?_eq_none h] at hj; simp at hj
  unfold mergeAt
  rw [List.length_eraseIdx, List.length_set, if_pos (by simpa using hj')]
  omega

/-- The inner loop never exhausts a budget that exceeds the distance to the end of
the list. -/
theorem innerLoop_fuel (geo : Geo P D) (pick : Nat → DistanceType) (i : Nat) :
    ∀ fuel j streets merges, 0 < fuel → streets.length < j + fuel →
      innerLoop geo pick i fuel j streets merges ≠ .error .outOfFuel := by
  intro fuel
  induction fuel with
  | zero =>
    intro j streets merges h0 _
    exact absurd h0 (by omega)
  | succ fuel ih =>
    intro j streets merges _ hf
    rw [innerLoop]
    split
    · split
      · exact ih _ _ _ (by omega) (by omega)
      · split
        · rename_i si sj hsi hsj
          have hlen := length_mergeAt (pick merges) streets i j si sj hsj
          split
          · dsimp only
            split
            · exact ih _ _ _ (by omega) (by omega)
            · exact ih _ _ _ (by omega) (by omega)
          · dsimp only
            split
            · simp
            · exact ih _ _ _ (by omega) (by omega)
        · simp
    · simp

end JoinLoops

section JoinFacts
variable {P D : Type}

/-- The working list never grows inside the inner loop. -/
theorem innerLoop_length_le (geo : Geo P D) (pick : Nat → DistanceType) (i fuel j : Nat)
    (streets out : List (street P)) (merges m : Nat)
    (h : innerLoop geo pick i fuel j streets merges = .ok (out, m)) :
    out.length + m = streets.length + merges ∧ merges ≤ m := by
  refine innerLoop_inv geo pick i
    (fun s k => s.length + k = streets.length + merges ∧ merges ≤ k) ?_
    fuel j streets merges out m ⟨rfl, Nat.le_refl _⟩ h
  intro s k j2 si sj _ _ hsj _ _ hinv
  have := length_mergeAt (pick k) s i j2 si sj hsj
  omega

/-- The outer loop never exhausts a budget that exceeds the distance to the end of
the list. -/
theorem outerLoop_fuel (geo : Geo P D) (pick : Nat → DistanceType) :
    ∀ fuel i streets merges, 0 < fuel → streets.length < i + fuel →
      outerLoop geo pick fuel i streets merges ≠ .error .outOfFuel := by
  intro fuel
  induction fuel with
  | zero => intro i streets merges h0 _; exact absurd h0 (by omega)
  | succ fuel ih =>
    intro i streets merges _ hf
    rw [outerLoop]
    split
    · split
      · rename_i s1 m1 h1
        have := innerLoop_length_le geo pick i _ _ _ _ _ _ h1
        exact ih _ _ _ (by omega) (by omega)
      · rename_i e h1
        intro he
        simp only [Except.error.injEq] at he
        rw [he] at h1
        exact innerLoop_fuel geo pick i _ _ _ _ (by omega) (by omega) h1
    · simp

/-- The loop budget of `joinStreets` is never exhausted: the function always ends,
with a list or with a Go panic. -/
theorem joinStreets_terminates (geo : Geo P D) (pick : Nat → DistanceType)
    (streets : List (street P)) :
    joinStreets geo pick streets ≠ .error .outOfFuel := by
  unfold joinStreets
  split
  · simp
  · rename_i e h
    intro he
    simp only [Except.error.injEq] at he
    rw [he] at h
    exact outerLoop_fuel geo pick _ _ _ _ (by omega) (by omega) h

/-- Replacing an entry changes a sum by the difference of the two contributions. -/
theorem sum_map_set (f : street P → Nat) (l : List (street P)) (i : Nat) (a b : street P)
    (h : l[i]? = some a) :
    ((l.set i b).map f).sum + f a = (l.map f).sum + f b := by
  induction l generalizing i with
  | nil => simp at h
  | cons x xs ih =>
    cases i with
    | zero =>
      simp only [List.getElem?_cons_zero, Option.some.injEq] at h
      subst h
      simp only [List.set_cons_zero, List.map_cons, List.sum_cons]
      omega
    | succ i =>
      simp only [List.getElem?_cons_succ] at h
      have := ih i h
      simp only [List.set_cons_succ, List.map_cons, List.sum_cons]
      omega

/-- Erasing an entry removes its contribution from a sum. -/
theorem sum_map_eraseIdx (f : street P → Nat) (l : List (street P)) (j : Nat) (a : street P)
    (h : l[j]? = some a) :
    ((l.eraseIdx j).map f).sum + f a = (l.map f).sum := by
  induction l generalizing j with
  | nil => simp at h
  | cons x xs ih =>
    cases j with
    | zero =>
      simp only [List.getElem?_cons_zero, Option.some.injEq] at h
      subst h
      simp only [List.eraseIdx_cons_zero, List.map_cons, List.sum_cons]
      omega
    | succ j =>
      simp only [List.getElem?_cons_succ] at h
      have := ih j h
      simp only [List.eraseIdx_cons_succ, List.map_cons, List.sum_cons]
      omega

/-- A merge of two different entries keeps the total number of vertices. -/
theorem vertices_mergeAt (ty : DistanceType) (streets : List (street P)) (i j : Nat)
    (si sj : street P) (hij : i ≠ j) (hsi : streets[i]? = some si)
    (hsj : streets[j]? = some sj) :
    ((mergeAt ty streets i j si sj).map fun s => s.Path.length).sum
      = (streets.map fun s => s.Path.length).sum := by
  unfold mergeAt
  have h1 := sum_map_set (fun s => s.Path.length) streets i si
    { si with Path := splice ty si.Path sj.Path } hsi
  have hj2 : (streets.set i { si with Path := splice ty si.Path sj.Path })[j]? = some sj := by
    rw [List.getElem?_set, if_neg hij]; exact hsj
  have h2 := sum_map_eraseIdx (fun s => s.Path.length) _ j sj hj2
  simp only [length_splice] at h1
  simp only at h2
  omega

/-- Where street `i` sits after the merge, and what it is. -/
theorem getElem?_mergeAt (ty : DistanceType) (streets : List (street P)) (i j : Nat)
    (si sj : street P) (hij : i ≠ j) (hsi : streets[i]? = some si) :
    (mergeAt ty streets i j si sj)[if i < j then i else i - 1]?
      = some { si with Path := splice ty si.Path sj.Path } := by
  have hi : i < streets.length := by
    rcases Nat.lt_or_ge i streets.length with h | h
    · exact h
    · rw [List.getElem?_eq_none h] at hsi; simp at hsi
  unfold mergeAt
  rw [List.getElem?_eraseIdx]
  by_cases h : i < j
  · rw [if_pos h, if_pos h, List.getElem?_set, if_pos rfl, if_pos hi]
  · have h3 : j < i := by omega
    rw [if_neg h, if_neg (by omega), List.getElem?_set, if_pos (by omega), if_pos hi]

/-- The inner loop reads the oracle only at the numbers of the merges it can still
do: fewer than the entries of the working list. -/
theorem innerLoop_congr (geo : Geo P D) (pick pick2 : Nat → DistanceType) (i : Nat) :
    ∀ fuel j streets merges, (∀ n, n + 1 < merges + streets.length → pick n = pick2 n) →
      innerLoop geo pick i fuel j streets merges = innerLoop geo pick2 i fuel j streets merges := by
  intro fuel
  induction fuel with
  | zero => intro j streets merges _; rfl
  | succ fuel ih =>
    intro j streets merges hp
    rw [innerLoop, innerLoop]
    split
    · rename_i hj
      split
      · exact ih _ _ _ hp
      · rename_i hij
        split
        · rename_i si sj hsi hsj
          have hlen := length_mergeAt (pick2 merges) streets i j si sj hsj
          have hi : i < streets.length := by
            rcases Nat.lt_or_ge i streets.length with h | h
            · exact h
            · rw [List.getElem?_eq_none h] at hsi; simp at hsi
          split
          · dsimp only
            split
            · rw [hp merges (by omega)]
              apply ih
              intro n hn
              exact hp n (by omega)
            · exact ih _ _ _ hp
          · dsimp only
            split
            · rfl
            · exact ih _ _ _ hp
        · rfl
    · rfl

/-- The outer loop reads the oracle only at the numbers of the merges it can still
do. -/
theorem outerLoop_congr (geo : Geo P D) (pick pick2 : Nat → DistanceType) :
    ∀ fuel i streets merges, (∀ n, n + 1 < merges + streets.length → pick n = pick2 n) →
      outerLoop geo pick fuel i streets merges = outerLoop geo pick2 fuel i streets merges := by
  intro fuel
  induction fuel with
  | zero => intro i streets merges _; rfl
  | succ fuel ih =>
    intro i streets merges hp
    rw [outerLoop, outerLoop, ← innerLoop_congr geo pick pick2 i _ _ _ _ hp]
    split
    · split
      · rename_i s1 m1 h1
        have := innerLoop_length_le geo pick i _ _ _ _ _ _ h1
        apply ih
        intro n hn
        exact hp n (by omega)
      · rfl
    · rfl

/-- Two oracles that agree on the first `len(streets) - 1` questions give the same
run of `joinStreets`. -/
theorem joinStreets_congr (geo : Geo P D) (pick pick2 : Nat → DistanceType)
    (streets : List (street P)) (hp : ∀ n, n + 1 < streets.length → pick n = pick2 n) :
    joinStreets geo pick streets = joinStreets geo pick2 streets := by
  unfold joinStreets joinStreetsCount
  rw [outerLoop_congr geo pick pick2 _ _ _ _ (by intro n hn; exact hp n (by omega))]

end JoinFacts

section NameClasses
variable {P D : Type}

end NameClasses

/-! ## Claims about `joinStreets` -/

/-- Every oracle agrees with `pick3` of its first three answers on the first three
questions. -/
theorem pick3_agrees (pick : Nat → DistanceType) (n : Nat) (h : n + 1 < 4) :
    pick n = pick3 (pick 0) (pick 1) (pick 2) n := by
  match n, h with
  | 0, _ => rfl
  | 1, _ => rfl
  | 2, _ => rfl

/-- C1 (failing input).  On scenario B, `[elmA, elmB]`, the pairing that
`joinStreets` splices with is the key the map iteration happens to deliver first,
not the nearest one: the result is `splice (pick 0)` of the two paths; when the
iteration starts at `"ff"` (distance 1, the minimum being 0 at `"lf"`) the
returned path is `[(0,2),(0,1),(0,0),(0,1)]` and not `[(0,0),(0,1),(0,1),(0,2)]`. -/
theorem joinStreets_pairing_follows_map_order :
    (∀ pick : Nat → DistanceType, joinStreets planar pick [elmA, elmB]
        = .ok [⟨splice (pick 0) elmA.Path elmB.Path, "Elm St"⟩])
    ∧ joinStreets planar (fun _ => .ff) [elmA, elmB]
        = .ok [⟨[(0, 2), (0, 1), (0, 0), (0, 1)], "Elm St"⟩]
    ∧ distanceList planar (0, 0) (0, 1) (0, 1) (0, 2) .lf
        < distanceList planar (0, 0) (0, 1) (0, 1) (0, 2) .ff
    ∧ joinStreets planar (fun _ => .lf) [elmA, elmB]
        = .ok [⟨[(0, 0), (0, 1), (0, 1), (0, 2)], "Elm St"⟩] := by
  refine ⟨?_, by rfl, by decide, by rfl⟩
  intro pick
  rw [joinStreets_congr planar pick (fun _ => pick 0) [elmA, elmB]
    (fun n hn => by
      have h0 : n = 0 := by simp at hn; omega
      rw [h0])]
  generalize pick 0 = a
  cases a <;> rfl

/-- C3 (failing input).  On `[elmA, elmB, elmC, elmD]` the run of `joinStreets`
completes with two streets of the same name whose paths intersect, whatever
order the map iteration takes: after the merge at `i = 1, j = 0` the scan ends
without comparing the merged street with `elmD`.  A second run on that result
merges the two, so the result is not a fixpoint. -/
theorem joinStreets_result_not_fixpoint (pick : Nat → DistanceType) :
    ∃ s t, joinStreets planar pick [elmA, elmB, elmC, elmD] = .ok [s, t]
      ∧ s ≠ t ∧ s.Name = t.Name ∧ planar.Intersects s.Path t.Path = true
      ∧ ∀ pick2 : Nat → DistanceType, joinStreets planar pick2 [s, t] ≠ .ok [s, t] := by
  rw [joinStreets_congr planar pick (pick3 (pick 0) (pick 1) (pick 2))
    [elmA, elmB, elmC, elmD] (fun n hn => pick3_agrees pick n hn)]
  generalize pick 0 = a
  generalize pick 1 = b
  generalize pick 2 = c
  cases a <;> cases b <;> cases c <;>
    exact ⟨_, _, rfl, by decide, by decide, by decide, fun pick2 => by
      rw [joinStreets_congr planar pick2 (fun _ => pick2 0) _ (fun n hn => by
        have h0 : n = 0 := by simp at hn; omega
        rw [h0])]
      generalize pick2 0 = d
      cases d <;> decide⟩

/-- C4.  A merge of the different entries `i` and `j` of a working list leaves in
the place of street `i` a path of `len(path i) + len(path j)` vertices and
shortens the list by one; and when `joinStreets` completes after `m` merges, the
result holds as many vertices as the input and `len(input) - m` streets. -/
theorem joinStreets_vertex_and_street_count {P D : Type} (geo : Geo P D)
    (pick : Nat → DistanceType) (streets out : List (street P)) (m : Nat)
    (ty : DistanceType) (ws : List (street P)) (i j : Nat) (si sj : street P)
    (hij : i ≠ j) (hsi : ws[i]? = some si) (hsj : ws[j]? = some sj)
    (h : joinStreetsCount geo pick streets = .ok (out, m)) :
    (mergeAt ty ws i j si sj)[if i < j then i else i - 1]?
        = some { si with Path := splice ty si.Path sj.Path }
    ∧ (splice ty si.Path sj.Path).length = si.Path.length + sj.Path.length
    ∧ (mergeAt ty ws i j si sj).length + 1 = ws.length
    ∧ joinStreets geo pick streets = .ok out
    ∧ (out.map fun s => s.Path.length).sum = (streets.map fun s => s.Path.length).sum
    ∧ out.length + m = streets.length := by
  refine ⟨getElem?_mergeAt ty ws i j si sj hij hsi, length_splice ty _ _,
    length_mergeAt ty ws i j si sj hsj,
    (joinStreets_eq_ok geo pick streets out).mpr ⟨m, h⟩, ?_, ?_⟩
  · exact joinStreetsCount_inv geo pick
      (fun l _ => (l.map fun s => s.Path.length).sum = (streets.map fun s => s.Path.length).sum)
      (fun l k i2 j2 si2 sj2 hij2 hsi2 hsj2 _ _ hinv => by
        beta_reduce
        rw [vertices_mergeAt (pick k) l i2 j2 si2 sj2 hij2 hsi2 hsj2]; exact hinv)
      streets out m rfl h
  · exact joinStreetsCount_inv geo pick (fun l k => l.length + k = streets.length)
      (fun l k i2 j2 si2 sj2 _ _ hsj2 _ _ hinv => by
        have := length_mergeAt (pick k) l i2 j2 si2 sj2 hsj2
        beta_reduce at hinv ⊢
        omega)
      streets out m rfl h

/-- C4, at scenario B: the merge of `elmB` into `elmA` gives one street of four
vertices, and the run performs that one merge. -/
theorem joinStreets_vertex_and_street_count_witness :
    (mergeAt .lf [elmA, elmB] 0 1 elmA elmB)[if 0 < 1 then 0 else 0 - 1]?
        = some { elmA with Path := splice .lf elmA.Path elmB.Path }
    ∧ (splice .lf elmA.Path elmB.Path).length = elmA.Path.length + elmB.Path.length
    ∧ (mergeAt .lf [elmA, elmB] 0 1 elmA elmB).length + 1 = [elmA, elmB].length
    ∧ joinStreets planar (fun _ => .lf) [elmA, elmB]
        = .ok [⟨[(0, 0), (0, 1), (0, 1), (0, 2)], "Elm St"⟩]
    ∧ ([(⟨[(0, 0), (0, 1), (0, 1), (0, 2)], "Elm St"⟩ : street Pt)].map
        fun s => s.Path.length).sum = ([elmA, elmB].map fun s => s.Path.length).sum
    ∧ [(⟨[(0, 0), (0, 1), (0, 1), (0, 2)], "Elm St"⟩ : street Pt)].length + 1
        = [elmA, elmB].length :=
  joinStreets_vertex_and_street_count planar (fun _ => .lf) [elmA, elmB]
    [⟨[(0, 0), (0, 1), (0, 1), (0, 2)], "Elm St"⟩] 1 .lf [elmA, elmB] 0 1 elmA elmB
    (by decide) (by rfl) (by rfl) (by rfl)

/-- C9.  The closure `reversePath` is list reversal for every length, and the four
cases of the switch give: first-first `reverse(Pj) ++ Pi`, first-last `Pj ++ Pi`,
last-first `Pi ++ Pj`, last-last `Pi ++ reverse(Pj)`; in each chain the two
paired endpoints are neighbours and each fragment stays in one piece. -/
theorem splice_is_head_to_tail_chain {P : Type} (pi pj : List P) :
    reversePath pi = pi.reverse
    ∧ splice .ff pi pj = pj.reverse ++ pi
    ∧ splice .fl pi pj = pj ++ pi
    ∧ splice .lf pi pj = pi ++ pj
    ∧ splice .ll pi pj = pi ++ pj.reverse
    ∧ (∀ (fi : P) (ti : List P) (fj : P) (tj : List P), splice .ff (fi :: ti) (fj :: tj) = tj.reverse ++ fj :: fi :: ti)
    ∧ (∀ (fi : P) (ti rj : List P) (lj : P), splice .fl (fi :: ti) (rj ++ [lj]) = rj ++ lj :: fi :: ti)
    ∧ (∀ (ri : List P) (li fj : P) (tj : List P), splice .lf (ri ++ [li]) (fj :: tj) = ri ++ li :: fj :: tj)
    ∧ (∀ (ri : List P) (li : P) (rj : List P) (lj : P), splice .ll (ri ++ [li]) (rj ++ [lj]) = ri ++ li :: lj :: rj.reverse) := by
  refine ⟨reversePath_eq_reverse pi, splice_ff pi pj, splice_fl pi pj, splice_lf pi pj,
    splice_ll pi pj, ?_, ?_, ?_, ?_⟩
  · intro fi ti fj tj; rw [splice_ff]; simp
  · intro fi ti rj lj; rw [splice_fl]; simp
  · intro ri li fj tj; rw [splice_lf]; simp
  · intro ri li rj lj; rw [splice_ll]; simp

/-- C10 (failing input).  On `[elmA, oakFar, elmB, elmW]` the run of `joinStreets`
ends in an index-out-of-range panic, whatever order the map iteration takes:
the merge at `i = 2, j = 0` shortens the list to two entries and the next
iteration reads `streets[2]`. -/
theorem joinStreets_index_out_of_range (pick : Nat → DistanceType) :
    joinStreets planar pick [elmA, oakFar, elmB, elmW] = .error .indexOutOfRange := by
  rw [joinStreets_congr planar pick (pick3 (pick 0) (pick 1) (pick 2))
    [elmA, oakFar, elmB, elmW] (fun n hn => pick3_agrees pick n hn)]
  generalize pick 0 = a
  generalize pick 1 = b
  generalize pick 2 = c
  cases a <;> cases b <;> cases c <;> rfl

/-! ## `printCSVLine` -/

section CrossroadLoops
variable {F : Type}

/-- With the coordinate present the inner loop appends `innerEmissions`. -/
theorem innerRange_some (fmtF : F → String) (handler : Xroads F) (c : Node F) (nodeid : Int)
    (i : Nat) (a : Int) (j : Nat) (rest : List Int) (out : List Emission) :
    innerRange fmtF handler (some c) nodeid i a j rest out
      = .ok (out ++ innerEmissions fmtF handler c nodeid i a j rest) := by
  induction rest generalizing j out with
  | nil => simp [innerRange, innerEmissions]
  | cons b rest ih =>
    rw [innerRange, innerEmissions]
    by_cases hs : skipped handler i j a b
    · have hs2 : j ≤ i ∨ a = b ∨ (handler.WayNames a).length = 0
          ∨ (handler.WayNames b).length = 0 := hs
      rw [if_pos hs, if_pos hs2, ih]
    · have hs2 : ¬ (j ≤ i ∨ a = b ∨ (handler.WayNames a).length = 0
          ∨ (handler.WayNames b).length = 0) := hs
      rw [if_neg hs, if_neg hs2, ih]
      simp [emission]

/-- With the coordinate present the outer loop appends `outerEmissions`. -/
theorem outerRange_some (fmtF : F → String) (handler : Xroads F) (c : Node F) (nodeid : Int)
    (all : List Int) (i : Nat) (rest : List Int) (out : List Emission) :
    outerRange fmtF handler (some c) nodeid all i rest out
      = .ok (out ++ outerEmissions fmtF handler c nodeid all i rest) := by
  induction rest generalizing i out with
  | nil => simp [outerRange, outerEmissions]
  | cons a rest ih =>
    rw [outerRange, outerEmissions, innerRange_some]
    dsimp only
    rw [ih]
    simp

/-- Without a coordinate the inner loop writes nothing: it passes its records on
or panics at the first pair that is not skipped. -/
theorem innerRange_none (fmtF : F → String) (handler : Xroads F) (nodeid : Int)
    (i : Nat) (a : Int) (j : Nat) (rest : List Int) (out : List Emission) :
    innerRange fmtF handler none nodeid i a j rest out = .ok out
      ∨ innerRange fmtF handler none nodeid i a j rest out = .error .nilPointer := by
  induction rest generalizing j with
  | nil => left; simp [innerRange]
  | cons b rest ih =>
    rw [innerRange]
    split
    · exact ih (j + 1)
    · right; rfl

/-- Without a coordinate the outer loop writes nothing. -/
theorem outerRange_none (fmtF : F → String) (handler : Xroads F) (nodeid : Int)
    (all : List Int) (i : Nat) (rest : List Int) (out : List Emission) :
    outerRange fmtF handler none nodeid all i rest out = .ok out
      ∨ outerRange fmtF handler none nodeid all i rest out = .error .nilPointer := by
  induction rest generalizing i with
  | nil => left; simp [outerRange]
  | cons a rest ih =>
    rw [outerRange]
    rcases innerRange_none fmtF handler nodeid i a 0 all out with h | h
    · rw [h]; exact ih (i + 1)
    · rw [h]; right; rfl

/-- The records of one inner pass: one for every later entry that is not skipped. -/
theorem mem_innerEmissions (fmtF : F → String) (handler : Xroads F) (c : Node F)
    (nodeid : Int) (i : Nat) (a : Int) (j : Nat) (rest : List Int) (e : Emission) :
    e ∈ innerEmissions fmtF handler c nodeid i a j rest ↔
      ∃ k b, rest[k]? = some b ∧ ¬ skipped handler i (j + k) a b
        ∧ e = emission fmtF handler c nodeid i (j + k) a b := by
  induction rest generalizing j with
  | nil => simp [innerEmissions]
  | cons b rest ih =>
    rw [innerEmissions]
    constructor
    · intro h
      have hrest : e ∈ innerEmissions fmtF handler c nodeid i a (j + 1) rest →
          ∃ k b2, (b :: rest)[k]? = some b2 ∧ ¬ skipped handler i (j + k) a b2
            ∧ e = emission fmtF handler c nodeid i (j + k) a b2 := by
        intro h2
        obtain ⟨k, b2, hk, hs, he⟩ := (ih (j + 1)).mp h2
        refine ⟨k + 1, b2, by simpa using hk, ?_, ?_⟩
        · rw [show j + (k + 1) = j + 1 + k by omega]; exact hs
        · rw [show j + (k + 1) = j + 1 + k by omega]; exact he
      split at h
      · exact hrest h
      · rename_i hs
        rcases List.mem_cons.mp h with h1 | h1
        · exact ⟨0, b, by simp, by simpa using hs, by simpa using h1⟩
        · exact hrest h1
    · rintro ⟨k, b2, hk, hs, he⟩
      cases k with
      | zero =>
        simp only [List.getElem?_cons_zero, Option.some.injEq] at hk
        subst hk
        simp only [Nat.add_zero] at hs he
        rw [if_neg hs, he]
        exact List.mem_cons_self _ _
      | succ k =>
        simp only [List.getElem?_cons_succ] at hk
        have : e ∈ innerEmissions fmtF handler c nodeid i a (j + 1) rest :=
          (ih (j + 1)).mpr ⟨k, b2, hk, by rw [show j + 1 + k = j + (k + 1) by omega]; exact hs,
            by rw [show j + 1 + k = j + (k + 1) by omega]; exact he⟩
        split
        · exact this
        · exact List.mem_cons_of_mem _ this

/-- The records of the outer loop: one for every pair of entries that is not
skipped. -/
theorem mem_outerEmissions (fmtF : F → String) (handler : Xroads F) (c : Node F)
    (nodeid : Int) (all : List Int) (i : Nat) (rest : List Int) (e : Emission) :
    e ∈ outerEmissions fmtF handler c nodeid all i rest ↔
      ∃ k a m b, rest[k]? = some a ∧ all[m]? = some b ∧ ¬ skipped handler (i + k) m a b
        ∧ e = emission fmtF handler c nodeid (i + k) m a b := by
  induction rest generalizing i with
  | nil => simp [outerEmissions]
  | cons a rest ih =>
    rw [outerEmissions, List.mem_append, mem_innerEmissions, ih]
    constructor
    · rintro (⟨m, b, hm, hs, he⟩ | ⟨k, a2, m, b, hk, hm, hs, he⟩)
      · exact ⟨0, a, m, b, by simp, hm, by simpa using hs, by simpa using he⟩
      · refine ⟨k + 1, a2, m, b, by simpa using hk, hm, ?_, ?_⟩
        · rw [show i + (k + 1) = i + 1 + k by omega]; exact hs
        · rw [show i + (k + 1) = i + 1 + k by omega]; exact he
    · rintro ⟨k, a2, m, b, hk, hm, hs, he⟩
      cases k with
      | zero =>
        simp only [List.getElem?_cons_zero, Option.some.injEq] at hk
        subst hk
        left
        exact ⟨m, b, hm, by simpa using hs, by simpa using he⟩
      | succ k =>
        simp only [List.getElem?_cons_succ] at hk
        right
        refine ⟨k, a2, m, b, hk, hm, ?_, ?_⟩
        · rw [show i + 1 + k = i + (k + 1) by omega]; exact hs
        · rw [show i + 1 + k = i + (k + 1) by omega]; exact he

/-- One inner pass writes its records by increasing inner index. -/
theorem pairwise_innerEmissions (fmtF : F → String) (handler : Xroads F) (c : Node F)
    (nodeid : Int) (i : Nat) (a : Int) (j : Nat) (rest : List Int) :
    (innerEmissions fmtF handler c nodeid i a j rest).Pairwise loopOrder := by
  induction rest generalizing j with
  | nil => simp [innerEmissions]
  | cons b rest ih =>
    rw [innerEmissions]
    split
    · exact ih (j + 1)
    · refine List.pairwise_cons.mpr ⟨?_, ih (j + 1)⟩
      intro e he
      obtain ⟨k, b2, _, _, rfl⟩ := (mem_innerEmissions fmtF handler c nodeid i a (j + 1) rest e).mp he
      right
      simp only [emission]
      exact ⟨trivial, by omega⟩

/-- The outer loop writes its records in loop order. -/
theorem pairwise_outerEmissions (fmtF : F → String) (handler : Xroads F) (c : Node F)
    (nodeid : Int) (all : List Int) (i : Nat) (rest : List Int) :
    (outerEmissions fmtF handler c nodeid all i rest).Pairwise loopOrder := by
  induction rest generalizing i with
  | nil => simp [outerEmissions]
  | cons a rest ih =>
    rw [outerEmissions]
    refine List.pairwise_append.mpr ⟨pairwise_innerEmissions fmtF handler c nodeid i a 0 all,
      ih (i + 1), ?_⟩
    intro e1 h1 e2 h2
    obtain ⟨m, b, _, _, rfl⟩ := (mem_innerEmissions fmtF handler c nodeid i a 0 all e1).mp h1
    obtain ⟨k, a2, m2, b2, _, _, _, rfl⟩ :=
      (mem_outerEmissions fmtF handler c nodeid all (i + 1) rest e2).mp h2
    left
    simp only [emission]
    omega

/-- In a list in loop order a record is the only one with its index pair. -/
theorem filter_loopOrder (l : List Emission) (h : l.Pairwise loopOrder) (e : Emission)
    (he : e ∈ l) : l.filter (fun x => decide (x.i = e.i ∧ x.j = e.j)) = [e] := by
  induction l with
  | nil => simp at he
  | cons x xs ih =>
    obtain ⟨hx, hxs⟩ := List.pairwise_cons.mp h
    rcases List.mem_cons.mp he with h1 | h1
    · subst h1
      have : xs.filter (fun x => decide (x.i = e.i ∧ x.j = e.j)) = [] := by
        rw [List.filter_eq_nil_iff]
        intro y hy
        have := hx y hy
        unfold loopOrder at this
        simp only [decide_eq_true_eq]
        omega
      rw [List.filter_cons, if_pos (by simp), this]
    · have := hx e h1
      unfold loopOrder at this
      have hne : ¬ (x.i = e.i ∧ x.j = e.j) := by omega
      simp only [List.filter_cons, hne, decide_False, Bool.false_eq_true, if_false]
      exact ih hxs h1

/-- A Go string has length zero exactly when it is the empty string. -/
theorem length_eq_zero_iff_empty (s : String) : s.length = 0 ↔ s = "" := by
  constructor
  · intro h
    apply String.ext
    exact List.length_eq_zero.mp h
  · intro h; subst h; rfl

/-- The records of `printCSVLine` when the node has a coordinate. -/
theorem printCSVLineTagged_some (fmtF : F → String) (handler : Xroads F) (c : Node F)
    (nodeid : Int) (ids : List Int) (hc : handler.Coords nodeid = some c) :
    printCSVLineTagged fmtF handler nodeid ids
      = .ok (outerEmissions fmtF handler c nodeid ids 0 ids) := by
  unfold printCSVLineTagged
  rw [hc, outerRange_some]
  simp

/-- Every record comes from an index pair `i < j` of ways with different ids and
non-empty names. -/
theorem mem_printCSVLine_records (fmtF : F → String) (handler : Xroads F) (c : Node F)
    (nodeid : Int) (ids : List Int) (e : Emission) :
    e ∈ outerEmissions fmtF handler c nodeid ids 0 ids ↔
      ∃ i a j b, ids[i]? = some a ∧ ids[j]? = some b ∧ i < j ∧ a ≠ b
        ∧ handler.WayNames a ≠ "" ∧ handler.WayNames b ≠ ""
        ∧ e = emission fmtF handler c nodeid i j a b := by
  rw [mem_outerEmissions]
  have key : ∀ (i j : Nat) (a b : Int), ¬ skipped handler i j a b ↔
      (i < j ∧ a ≠ b ∧ handler.WayNames a ≠ "" ∧ handler.WayNames b ≠ "") := by
    intro i j a b
    unfold skipped
    simp only [not_or, Nat.not_le, length_eq_zero_iff_empty]
  constructor
  · rintro ⟨k, a, m, b, hk, hm, hs, he⟩
    rw [Nat.zero_add] at hs he
    obtain ⟨h1, h2, h3, h4⟩ := (key k m a b).mp hs
    exact ⟨k, a, m, b, hk, hm, h1, h2, h3, h4, he⟩
  · rintro ⟨i, a, j, b, hi, hj, h1, h2, h3, h4, he⟩
    exact ⟨i, a, j, b, hi, hj, by rw [Nat.zero_add]; exact (key i j a b).mpr ⟨h1, h2, h3, h4⟩,
      by rw [Nat.zero_add]; exact he⟩

end CrossroadLoops

/-! ## Claims about `printCSVLine` -/

/-- C5 (counterexample).  Two ways 1 and 2 that meet at node 100 and are both
called "Main St" give a crossroad row whose two street names are equal. -/
theorem printCSVLine_same_name_row :
    printCSVLine (fun x : Int => toString x) splitMainSt 100 [1, 2]
      = .ok [["osm", "w1-n100-w2", "intersection", "1", "2", "Main St", "Main St"]] := by
  decide

/-- C5 (amended).  For every node id, way-id list and way-name map, `printCSVLine`
either panics on the missing coordinate before writing anything, or returns, and
then each row it wrote carries two non-empty street names, that of the first and
that of the second of two ways with different ids; the names may be equal. -/
theorem printCSVLine_rows_named {F : Type} (fmtF : F → String) (handler : Xroads F)
    (nodeid : Int) (ids : List Int) :
    (handler.Coords nodeid = none
        ∧ printCSVLine fmtF handler nodeid ids = .error .nilPointer)
    ∨ ∃ out, printCSVLineTagged fmtF handler nodeid ids = .ok out
        ∧ printCSVLine fmtF handler nodeid ids = .ok (out.map Emission.record)
        ∧ ∀ e ∈ out, e.wayID1 ≠ e.wayID2
            ∧ handler.WayNames e.wayID1 ≠ "" ∧ handler.WayNames e.wayID2 ≠ ""
            ∧ e.record.drop 5 = [handler.WayNames e.wayID1, handler.WayNames e.wayID2] := by
  cases hc : handler.Coords nodeid with
  | none =>
    have h := outerRange_none fmtF handler nodeid ids 0 ids []
    unfold printCSVLine printCSVLineTagged
    rw [hc]
    rcases h with h | h
    · right
      exact ⟨[], h, by rw [h], by simp⟩
    · left
      exact ⟨rfl, by rw [h]⟩
  | some c =>
    right
    refine ⟨_, printCSVLineTagged_some fmtF handler c nodeid ids hc, ?_, ?_⟩
    · unfold printCSVLine
      rw [printCSVLineTagged_some fmtF handler c nodeid ids hc]
    · intro e he
      obtain ⟨i, a, j, b, _, _, _, hab, ha, hb, rfl⟩ :=
        (mem_printCSVLine_records fmtF handler c nodeid ids e).mp he
      exact ⟨hab, ha, hb, rfl⟩

/-- C6.  For a way-id list without duplicates, `printCSVLine` either panics on the
missing coordinate before writing anything, or returns, and then: no row pairs a
way id with itself, the first way id of a row stands before the second in the
list, and no two rows have the same pair of way ids, in the same or in the
mirrored order. -/
theorem printCSVLine_pairs_once {F : Type} (fmtF : F → String) (handler : Xroads F)
    (nodeid : Int) (ids : List Int) (hnd : ids.Nodup) :
    (handler.Coords nodeid = none
        ∧ printCSVLine fmtF handler nodeid ids = .error .nilPointer)
    ∨ ∃ out, printCSVLineTagged fmtF handler nodeid ids = .ok out
        ∧ printCSVLine fmtF handler nodeid ids = .ok (out.map Emission.record)
        ∧ (∀ e ∈ out, e.wayID1 ≠ e.wayID2 ∧ e.i < e.j
            ∧ ids[e.i]? = some e.wayID1 ∧ ids[e.j]? = some e.wayID2
            ∧ e.record.take 3 = ["osm", crossroadID e.wayID1 nodeid e.wayID2, "intersection"])
        ∧ out.Pairwise (fun e1 e2 =>
            ¬ (e1.wayID1 = e2.wayID1 ∧ e1.wayID2 = e2.wayID2)
            ∧ ¬ (e1.wayID1 = e2.wayID2 ∧ e1.wayID2 = e2.wayID1)) := by
  cases hc : handler.Coords nodeid with
  | none =>
    have h := outerRange_none fmtF handler nodeid ids 0 ids []
    unfold printCSVLine printCSVLineTagged
    rw [hc]
    rcases h with h | h
    · right
      exact ⟨[], h, by rw [h], by simp, List.Pairwise.nil⟩
    · left
      exact ⟨rfl, by rw [h]⟩
  | some c =>
    right
    have hmem : ∀ e ∈ outerEmissions fmtF handler c nodeid ids 0 ids,
        e.wayID1 ≠ e.wayID2 ∧ e.i < e.j ∧ ids[e.i]? = some e.wayID1
          ∧ ids[e.j]? = some e.wayID2
          ∧ e.record.take 3 = ["osm", crossroadID e.wayID1 nodeid e.wayID2, "intersection"] := by
      intro e he
      obtain ⟨i, a, j, b, hi, hj, hij, hab, _, _, rfl⟩ :=
        (mem_printCSVLine_records fmtF handler c nodeid ids e).mp he
      exact ⟨hab, hij, hi, hj, rfl⟩
    have hidx : ∀ (i j : Nat) (a : Int), ids[i]? = some a → ids[j]? = some a → i = j := by
      intro i j a hi hj
      have hlt : i < ids.length := (List.getElem?_eq_some.mp hi).1
      exact List.getElem?_inj hlt hnd (hi.trans hj.symm)
    refine ⟨_, printCSVLineTagged_some fmtF handler c nodeid ids hc, ?_, hmem, ?_⟩
    · unfold printCSVLine
      rw [printCSVLineTagged_some fmtF handler c nodeid ids hc]
    · refine List.Pairwise.imp_of_mem ?_ (pairwise_outerEmissions fmtF handler c nodeid ids 0 ids)
      intro e1 e2 h1 h2 hlo
      obtain ⟨_, hlt1, hi1, hj1, _⟩ := hmem e1 h1
      obtain ⟨_, hlt2, hi2, hj2, _⟩ := hmem e2 h2
      unfold loopOrder at hlo
      constructor
      · rintro ⟨ha, hb⟩
        have e1i := hidx _ _ _ hi1 (ha ▸ hi2)
        have e1j := hidx _ _ _ hj1 (hb ▸ hj2)
        omega
      · rintro ⟨ha, hb⟩
        have e1i := hidx _ _ _ hi1 (ha ▸ hj2)
        have e1j := hidx _ _ _ hj1 (hb ▸ hi2)
        omega

/-- C6, at the list `[1, 2]` of scenario A. -/
theorem printCSVLine_pairs_once_witness :
    [(1 : Int), 2].Nodup ∧
    ((scenarioA.Coords 100 = none
        ∧ printCSVLine (fun x : Int => toString x) scenarioA 100 [1, 2] = .error .nilPointer)
    ∨ ∃ out, printCSVLineTagged (fun x : Int => toString x) scenarioA 100 [1, 2] = .ok out
        ∧ printCSVLine (fun x : Int => toString x) scenarioA 100 [1, 2]
            = .ok (out.map Emission.record)
        ∧ (∀ e ∈ out, e.wayID1 ≠ e.wayID2 ∧ e.i < e.j
            ∧ [(1 : Int), 2][e.i]? = some e.wayID1 ∧ [(1 : Int), 2][e.j]? = some e.wayID2
            ∧ e.record.take 3 = ["osm", crossroadID e.wayID1 100 e.wayID2, "intersection"])
        ∧ out.Pairwise (fun e1 e2 =>
            ¬ (e1.wayID1 = e2.wayID1 ∧ e1.wayID2 = e2.wayID2)
            ∧ ¬ (e1.wayID1 = e2.wayID2 ∧ e1.wayID2 = e2.wayID1))) :=
  ⟨by decide, printCSVLine_pairs_once (fun x : Int => toString x) scenarioA 100 [1, 2]
    (by decide)⟩

/-- C7.  For a node with a recorded coordinate and an index pair `i < j` whose ways
`a`, `b` have non-empty, different names, `printCSVLine` returns and wrote
exactly one row for that index pair: `osm`, `w{a}-n{N}-w{b}`, `intersection`,
latitude, longitude, name of `a`, name of `b`.  For the list `[1, 2]` at node
100 with the names "Main St" and "Oak Ave" the rows written are that one row,
with id `w1-n100-w2`. -/
theorem printCSVLine_one_row_per_pair {F : Type} (fmtF : F → String) (handler : Xroads F)
    (nodeid : Int) (ids : List Int) (c : Node F) (i j : Nat) (a b : Int)
    (hc : handler.Coords nodeid = some c) (hij : i < j)
    (hi : ids[i]? = some a) (hj : ids[j]? = some b)
    (ha : handler.WayNames a ≠ "") (hb : handler.WayNames b ≠ "")
    (hab : handler.WayNames a ≠ handler.WayNames b) :
    (∃ out, printCSVLineTagged fmtF handler nodeid ids = .ok out
      ∧ printCSVLine fmtF handler nodeid ids = .ok (out.map Emission.record)
      ∧ out.filter (fun e => decide (e.i = i ∧ e.j = j))
          = [⟨i, j, a, b, ["osm", crossroadID a nodeid b, "intersection", fmtF c.Lat,
              fmtF c.Lon, handler.WayNames a, handler.WayNames b]⟩])
    ∧ (∀ (h2 : Xroads F) (c2 : Node F), h2.Coords 100 = some c2 →
        h2.WayNames 1 = "Main St" → h2.WayNames 2 = "Oak Ave" →
        printCSVLine fmtF h2 100 [1, 2]
          = .ok [["osm", "w1-n100-w2", "intersection", fmtF c2.Lat, fmtF c2.Lon,
              "Main St", "Oak Ave"]]) := by
  constructor
  · refine ⟨_, printCSVLineTagged_some fmtF handler c nodeid ids hc, ?_, ?_⟩
    · unfold printCSVLine
      rw [printCSVLineTagged_some fmtF handler c nodeid ids hc]
    · have hne : a ≠ b := fun h => hab (h ▸ rfl)
      have hmem : emission fmtF handler c nodeid i j a b
          ∈ outerEmissions fmtF handler c nodeid ids 0 ids :=
        (mem_printCSVLine_records fmtF handler c nodeid ids _).mpr
          ⟨i, a, j, b, hi, hj, hij, hne, ha, hb, rfl⟩
      exact filter_loopOrder _ (pairwise_outerEmissions fmtF handler c nodeid ids 0 ids) _ hmem
  · intro h2 c2 hc2 hn1 hn2
    unfold printCSVLine
    rw [printCSVLineTagged_some fmtF h2 c2 100 [1, 2] hc2]
    have s1 : ¬ skipped h2 0 1 1 2 := by
      unfold skipped; rw [hn1, hn2]; decide
    have s2 : skipped h2 0 0 1 1 := by unfold skipped; left; omega
    have s3 : skipped h2 1 0 2 1 := by unfold skipped; left; omega
    have s4 : skipped h2 1 1 2 2 := by unfold skipped; left; omega
    simp only [outerEmissions, innerEmissions, if_pos s2, if_neg s1, if_pos s3, if_pos s4,
      emission, csvRecord, hn1, hn2, List.map, List.append_nil, List.nil_append,
      List.cons_append]
    have hid : crossroadID 1 100 2 = "w1-n100-w2" := by decide
    rw [hid]

/-- C7, at scenario A. -/
theorem printCSVLine_one_row_per_pair_witness :
    (∃ out, printCSVLineTagged (fun x : Int => toString x) scenarioA 100 [1, 2] = .ok out
      ∧ printCSVLine (fun x : Int => toString x) scenarioA 100 [1, 2]
          = .ok (out.map Emission.record)
      ∧ out.filter (fun e => decide (e.i = 0 ∧ e.j = 1))
          = [⟨0, 1, 1, 2, ["osm", crossroadID 1 100 2, "intersection", toString (1 : Int),
              toString (2 : Int), scenarioA.WayNames 1, scenarioA.WayNames 2]⟩])
    ∧ (∀ (h2 : Xroads Int) (c2 : Node Int), h2.Coords 100 = some c2 →
        h2.WayNames 1 = "Main St" → h2.WayNames 2 = "Oak Ave" →
        printCSVLine (fun x : Int => toString x) h2 100 [1, 2]
          = .ok [["osm", "w1-n100-w2", "intersection", toString c2.Lat, toString c2.Lon,
              "Main St", "Oak Ave"]]) :=
  printCSVLine_one_row_per_pair (fun x : Int => toString x) scenarioA 100 [1, 2] ⟨1, 2⟩ 0 1 1 2
    (by rfl) (by decide) (by rfl) (by rfl) (by decide) (by decide) (by decide)

/-! ## `generateStreetsFromWays` -/

section Ways
variable {F : Type}

/-- A string without the separator is not split. -/
theorem splitChars_of_not_mem (sep : Char) (cs : List Char) (h : sep ∉ cs) :
    splitChars sep cs = [cs] := by
  induction cs with
  | nil => rfl
  | cons c cs ih =>
    have hc : c ≠ sep := fun e => h (e ▸ List.mem_cons_self _ _)
    have hcs : sep ∉ cs := fun e => h (List.mem_cons_of_mem _ e)
    rw [splitChars, if_neg hc, ih hcs]

/-- The call `strings.Split` on a string without the separator returns the string
alone. -/
theorem Split_of_not_mem (s : String) (sep : Char) (h : sep ∉ s.data) : Split s sep = [s] := by
  unfold Split
  rw [splitChars_of_not_mem sep s.data h]
  rfl

/-- When the path loop completes, it has appended one point per entry, in order,
and every entry parsed. -/
theorem buildPath_some (ParseFloat : String → Option F) (entries : List String) :
    ∀ (i : Nat) (path p : List (F × F)), i = path.length →
      buildPath ParseFloat i entries path = .ok (some p) →
      ∃ pts, p = path ++ pts ∧ entries.map (entryPoint ParseFloat) = pts.map some := by
  induction entries with
  | nil =>
    intro i path p _ h
    simp only [buildPath, Except.ok.injEq, Option.some.injEq] at h
    exact ⟨[], by simp [h], rfl⟩
  | cons node rest ih =>
    intro i path p hi h
    rw [buildPath] at h
    split at h
    · rename_i c0 c1 tl hsplit
      split at h
      · rename_i lon lat hlon hlat
        have hins : InsertAt path i (lon, lat) = .ok (path ++ [(lon, lat)]) := by
          unfold InsertAt
          rw [if_neg (by omega), hi, List.insertIdx_length_self]
        rw [hins] at h
        obtain ⟨pts, hp, hpts⟩ := ih (i + 1) _ p (by simp [hi]) h
        refine ⟨(lon, lat) :: pts, by simp [hp], ?_⟩
        have he : entryPoint ParseFloat node = some (lon, lat) := by
          unfold entryPoint
          rw [hsplit]
          simp only [hlon, hlat]
        simp only [List.map_cons, he, hpts]
      · simp at h
    · simp at h

/-- A street is appended only for a row with a node list of at least two entries
that all parse; its path is the parsed entries in order. -/
theorem callback_some (ParseFloat : String → Option F) (row : WayRow) (s : street (F × F))
    (h : callback ParseFloat row = .ok (some s)) :
    ∃ ids, row.nodeids = some ids ∧ 2 ≤ (Split ids ',').length
      ∧ (Split ids ',').map (entryPoint ParseFloat) = s.Path.map some
      ∧ row.name = some s.Name := by
  unfold callback at h
  split at h
  · simp at h
  · rename_i name hname
    split at h
    · simp at h
    · rename_i nodeids hids
      dsimp only at h
      split at h
      · simp at h
      · rename_i hlen
        split at h
        · rename_i path hpath
          simp only [Except.ok.injEq, Option.some.injEq] at h
          obtain ⟨pts, hp, hpts⟩ := buildPath_some ParseFloat _ 0 [] path rfl hpath
          refine ⟨nodeids, hids, by omega, ?_, ?_⟩
          · rw [← h]
            simp only [List.nil_append] at hp
            rw [hp]; exact hpts
          · rw [← h]; exact hname
        · simp at h
        · simp at h

/-- Every street that the row loop returns was there before or was produced by the
callback on one of the rows. -/
theorem loadStreets_mem (ParseFloat : String → Option F) (rows : List WayRow) :
    ∀ (acc out : List (street (F × F))), loadStreets ParseFloat rows acc = .ok out →
      ∀ t ∈ out, t ∈ acc ∨ ∃ row ∈ rows, callback ParseFloat row = .ok (some t) := by
  induction rows with
  | nil =>
    intro acc out h t ht
    simp only [loadStreets, Except.ok.injEq] at h
    left; rw [h]; exact ht
  | cons row rest ih =>
    intro acc out h t ht
    rw [loadStreets] at h
    split at h
    · rename_i s hs
      rcases ih _ _ h t ht with h1 | ⟨r, hr, hcb⟩
      · rcases List.mem_append.mp h1 with h2 | h2
        · left; exact h2
        · right
          simp only [List.mem_singleton] at h2
          exact ⟨row, List.mem_cons_self _ _, h2 ▸ hs⟩
      · right; exact ⟨r, List.mem_cons_of_mem _ hr, hcb⟩
    · rcases ih _ _ h t ht with h1 | ⟨r, hr, hcb⟩
      · left; exact h1
      · right; exact ⟨r, List.mem_cons_of_mem _ hr, hcb⟩
    · simp at h

end Ways

/-- C8 (counterexample).  A way with one resolvable node and no name tag does not
let the run continue: `rows.Scan` fails on the `NULL` name and the run ends in
`log.Fatal`, the two-node way after it is never read. -/
theorem generateStreetsFromWays_one_node_unnamed_fatal :
    callback sampleParse unnamedOneNodeWay = .error .fatalExit
    ∧ generateStreetsFromWays sampleParse [unnamedOneNodeWay, twoNodeWay]
        = .error .fatalExit := by
  refine ⟨by rfl, by rfl⟩

/-- C8 (amended).  The callback appends a street for a row only if the row has a
node list that splits into at least two entries which all parse; the path is the
parsed entries in order, one vertex per entry, so it has at least two vertices,
as has every street that `generateStreetsFromWays` returns.  A row whose node
list is a single entry never yields a street: when its name is not `NULL` the
row is skipped and the loop goes on with the rows after it, when its name is
`NULL` the run ends in `log.Fatal`. -/
theorem generateStreetsFromWays_two_points {F : Type} (ParseFloat : String → Option F)
    (row : WayRow) (s : street (F × F)) (rows : List WayRow) (out : List (street (F × F)))
    (lone : WayRow) (ids1 : String) (rest : List WayRow) (acc : List (street (F × F)))
    (h : callback ParseFloat row = .ok (some s))
    (hgen : generateStreetsFromWays ParseFloat rows = .ok out)
    (hl1 : lone.nodeids = some ids1) (hl2 : ',' ∉ ids1.data) :
    (∃ ids, row.nodeids = some ids ∧ 2 ≤ (Split ids ',').length
      ∧ (Split ids ',').map (entryPoint ParseFloat) = s.Path.map some
      ∧ s.Path.length = (Split ids ',').length)
    ∧ 2 ≤ s.Path.length
    ∧ (∀ t ∈ out, 2 ≤ t.Path.length)
    ∧ (∀ t, callback ParseFloat lone ≠ .ok (some t))
    ∧ (lone.name ≠ none → callback ParseFloat lone = .ok none
        ∧ loadStreets ParseFloat (lone :: rest) acc = loadStreets ParseFloat rest acc)
    ∧ (lone.name = none → callback ParseFloat lone = .error .fatalExit
        ∧ loadStreets ParseFloat (lone :: rest) acc = .error .fatalExit) := by
  have two : ∀ (r : WayRow) (t : street (F × F)), callback ParseFloat r = .ok (some t) →
      ∃ ids, r.nodeids = some ids ∧ 2 ≤ (Split ids ',').length
        ∧ (Split ids ',').map (entryPoint ParseFloat) = t.Path.map some
        ∧ t.Path.length = (Split ids ',').length := by
    intro r t hr
    obtain ⟨ids, h1, h2, h3, _⟩ := callback_some ParseFloat r t hr
    refine ⟨ids, h1, h2, h3, ?_⟩
    have := congrArg List.length h3
    simp only [List.length_map] at this
    exact this.symm
  have hnamed : ∀ name1, lone.name = some name1 → callback ParseFloat lone = .ok none := by
    intro name1 hl3
    unfold callback
    rw [hl3, hl1]
    dsimp only
    rw [Split_of_not_mem ids1 ',' hl2]
    simp
  have hnull : lone.name = none → callback ParseFloat lone = .error .fatalExit := by
    intro hl3
    unfold callback
    rw [hl3]
  refine ⟨two row s h, ?_, ?_, ?_, ?_, ?_⟩
  · obtain ⟨ids, _, h2, _, h4⟩ := two row s h
    omega
  · intro t ht
    rcases loadStreets_mem ParseFloat rows [] out hgen t ht with h1 | ⟨r, _, hcb⟩
    · simp at h1
    · obtain ⟨ids, _, h2, _, h4⟩ := two r t hcb
      omega
  · intro t ht
    obtain ⟨ids, h1, h2, _, _⟩ := two lone t ht
    rw [hl1] at h1
    simp only [Option.some.injEq] at h1
    rw [← h1, Split_of_not_mem ids1 ',' hl2] at h2
    simp at h2
  · intro hne
    cases hn : lone.name with
    | none => exact absurd hn hne
    | some name1 =>
      have hc := hnamed name1 hn
      exact ⟨hc, by rw [loadStreets, hc]⟩
  · intro hn
    have hc := hnull hn
    exact ⟨hc, by rw [loadStreets, hc]⟩

/-- C8 (amended), at scenario C followed by a way of two nodes: the one-node way
is dropped and the two-node way becomes the street `elmA`. -/
theorem generateStreetsFromWays_two_points_witness :
    generateStreetsFromWays sampleParse [oneNodeWay, twoNodeWay] = .ok [elmA]
    ∧ (∃ ids, twoNodeWay.nodeids = some ids ∧ 2 ≤ (Split ids ',').length
      ∧ (Split ids ',').map (entryPoint sampleParse) = elmA.Path.map some
      ∧ elmA.Path.length = (Split ids ',').length)
    ∧ 2 ≤ elmA.Path.length
    ∧ (∀ t ∈ [elmA], 2 ≤ t.Path.length)
    ∧ (∀ t, callback sampleParse oneNodeWay ≠ .ok (some t))
    ∧ (oneNodeWay.name ≠ none → callback sampleParse oneNodeWay = .ok none
        ∧ loadStreets sampleParse (oneNodeWay :: [twoNodeWay]) []
            = loadStreets sampleParse [twoNodeWay] [])
    ∧ (oneNodeWay.name = none → callback sampleParse oneNodeWay = .error .fatalExit
        ∧ loadStreets sampleParse (oneNodeWay :: [twoNodeWay]) [] = .error .fatalExit) :=
  ⟨by rfl,
    generateStreetsFromWays_two_points sampleParse twoNodeWay elmA [oneNodeWay, twoNodeWay]
      [elmA] oneNodeWay "0#0" [twoNodeWay] [] (by rfl) (by rfl) (by rfl) (by decide)⟩

end Pbf
